import Mathlib

/-!
Verification development for the TSI schedule bot.

Part 1 embeds `app/core/schedule_monitor.py` (the change detector):
the event identity function `_generate_event_id`, the diffing routine
`check_for_changes`, and the per-group cycle entry `check_group`.

Modelling notes, faithful to the source:
* A portal event is a Python dict; the detector reads the fields
  `date`, `start_time`, `end_time`, `title`, `group` (identity key),
  `is_cancelled` (flag), and, only for message formatting, `room` and
  `lecturer`.  We model it as a record of those fields; `dict.get`
  defaults (empty string / False) are the fields' values when the
  portal omits them.
* `_generate_event_id` is `md5('|'.join(key_parts)).hexdigest()[:16]`.
  The id is used only for equality comparisons, so we model the hash
  by the joined key itself: this keeps exactly the collisions the
  join itself produces and abstracts only md5 collisions.
* Python `dict` preserves insertion order and overwrites the value of
  an existing key in place; Python `set` iteration order is
  unspecified, we fix first-insertion order.  All claims are at the
  set level, so the choice is immaterial.
* `ScheduleSnapshot` also stores `events_hash` (written, never read
  anywhere in the repository) and `timestamp`; neither takes part in
  any diff, so they are dropped from the record.
-/

structure Event where
  date : String
  start_time : String
  end_time : String
  title : String
  group : String
  room : String
  lecturer : String
  is_cancelled : Bool
deriving DecidableEq, Repr

/-- `_generate_event_id`: the identity key of an event is the
five-tuple (date, start_time, end_time, title, group) joined by `|`
(md5-of-key in the source; see the modelling note). -/
def generateEventId (e : Event) : String :=
  String.intercalate "|" [e.date, e.start_time, e.end_time, e.title, e.group]

/-- Snapshot of schedule state for a group (`ScheduleSnapshot`). -/
structure ScheduleSnapshot where
  group_code : String
  events : List Event
  cancelled_ids : List String
deriving DecidableEq, Repr

/-- The result dict of `check_for_changes`. -/
structure Changes where
  newly_cancelled : List Event
  new_events : List Event
  removed_events : List Event
  changed : Bool
deriving DecidableEq, Repr

/-- `current_ids[event_id] = event`: Python dict insert (overwrite the
value of an existing key in place, else append). -/
def insertAssoc (l : List (String × Event)) (k : String) (v : Event) :
    List (String × Event) :=
  if l.any (fun p => p.1 = k) then
    l.map (fun p => if p.1 = k then (k, v) else p)
  else l ++ [(k, v)]

/-- `current_cancelled.add(event_id)`: Python set insert (first
insertion wins a position; later inserts of the same id are no-ops). -/
def insertSet (l : List String) (k : String) : List String :=
  if k ∈ l then l else l ++ [k]

/-- One iteration of the loop `for event in current_events:` of
`check_for_changes`: record the event under its id and, when flagged,
add the id to `current_cancelled`. -/
def indexStep (acc : List (String × Event) × List String) (e : Event) :
    List (String × Event) × List String :=
  let event_id := generateEventId e
  (insertAssoc acc.1 event_id e,
   if e.is_cancelled then insertSet acc.2 event_id else acc.2)

/-- The loop `for event in current_events:` of `check_for_changes`
building `current_ids` and `current_cancelled`. -/
def buildIndex (events : List Event) : List (String × Event) × List String :=
  events.foldl indexStep ([], [])

/-- `current_ids.get(event_id)`. -/
def lookupAssoc (l : List (String × Event)) (k : String) : Option Event :=
  (l.find? (fun p => p.1 = k)).map (fun p => p.2)

/-- First-observation branch: the loop `for event_id in
current_cancelled:` reporting already-cancelled events dated today or
tomorrow. -/
def firstNewlyCancelled (current_ids : List (String × Event))
    (current_cancelled : List String) (today tomorrow : String) :
    List Event :=
  current_cancelled.foldl
    (fun acc event_id =>
      match lookupAssoc current_ids event_id with
      | some event =>
        if event.date = today || event.date = tomorrow then acc ++ [event]
        else acc
      | none => acc) []

/-- The loop `for event_id in current_cancelled:` of the
subsequent-observation branch. -/
def nextNewlyCancelled (current_ids : List (String × Event))
    (current_cancelled : List String) (prev_cancelled_ids : List String) :
    List Event :=
  current_cancelled.foldl
    (fun acc event_id =>
      if event_id ∈ prev_cancelled_ids then acc
      else
        match lookupAssoc current_ids event_id with
        | some event => acc ++ [event]
        | none => acc) []

/-- `prev_ids = {self._generate_event_id(e) for e in prev_snapshot.events}`. -/
def prevIdsOf (prev_events : List Event) : List String :=
  prev_events.foldl (fun acc e => insertSet acc (generateEventId e)) []

/-- The loop `for event_id, event in current_ids.items():`. -/
def newEventsOf (current_ids : List (String × Event))
    (prev_ids : List String) : List Event :=
  current_ids.foldl
    (fun acc p => if p.1 ∈ prev_ids then acc else acc ++ [p.2]) []

/-- The loop `for event_id in prev_ids:` with its inner
`for prev_event in prev_snapshot.events ... break` first-match scan. -/
def removedEventsOf (current_ids : List (String × Event))
    (prev_ids : List String) (prev_events : List Event) : List Event :=
  prev_ids.foldl
    (fun acc event_id =>
      if current_ids.any (fun p => p.1 = event_id) then acc
      else
        match prev_events.find? (fun e => generateEventId e = event_id) with
        | some prev_event => acc ++ [prev_event]
        | none => acc) []

/--
`ScheduleMonitor.check_for_changes`, per group: `prev` is
`self._snapshots.get(group_code)`; `today` and `tomorrow` are the
`%Y-%m-%d` strings the source computes from the wall clock; the result
is the changes dict together with the snapshot stored back into
`self._snapshots[group_code]`.
-/
def checkForChanges (prev : Option ScheduleSnapshot) (group_code : String)
    (today tomorrow : String) (current_events : List Event) :
    Changes × ScheduleSnapshot :=
  let idx := buildIndex current_events
  let current_ids := idx.1
  let current_cancelled := idx.2
  let snap : ScheduleSnapshot :=
    { group_code := group_code
      events := current_events
      cancelled_ids := current_cancelled }
  match prev with
  | none =>
    -- First time seeing this group: report already-cancelled events
    -- dated today/tomorrow, then save the snapshot.
    let nc := firstNewlyCancelled current_ids current_cancelled today tomorrow
    ({ newly_cancelled := nc, new_events := [], removed_events := [],
       changed := !nc.isEmpty }, snap)
  | some prev_snapshot =>
    let nc := nextNewlyCancelled current_ids current_cancelled
      prev_snapshot.cancelled_ids
    let prev_ids := prevIdsOf prev_snapshot.events
    let ne := newEventsOf current_ids prev_ids
    let rem := removedEventsOf current_ids prev_ids prev_snapshot.events
    ({ newly_cancelled := nc, new_events := ne, removed_events := rem,
       changed := !(nc.isEmpty && ne.isEmpty && rem.isEmpty) }, snap)

/-- Result of `check_group`: either the changes dict or the
`{'error': str(e)}` dict. -/
inductive CheckResult where
  | changes (c : Changes)
  | error (msg : String)
deriving DecidableEq, Repr

/--
`ScheduleMonitor.check_group` for one group: the fetch collaborator
either yields the event list or raises (`Except.error`).  The whole
body sits in a `try`, so a raising fetch is caught before
`check_for_changes` runs; the returned snapshot component is the
monitor's stored snapshot for the group after the call.
-/
def checkGroup (prev : Option ScheduleSnapshot) (group_code : String)
    (today tomorrow : String) (fetch : Except String (List Event)) :
    CheckResult × Option ScheduleSnapshot :=
  match fetch with
  | Except.error e => (CheckResult.error e, prev)
  | Except.ok events =>
    let r := checkForChanges prev group_code today tomorrow events
    (CheckResult.changes r.1, some r.2)

/-! ### Characterization lemmas for the index-building folds -/

theorem mem_insertSet {l : List String} {k x : String} :
    x ∈ insertSet l k ↔ x ∈ l ∨ x = k := by
  unfold insertSet
  split
  · constructor
    · exact fun h => Or.inl h
    · rintro (h | rfl)
      · exact h
      · assumption
  · simp [or_comm]

theorem mem_insertAssoc {l : List (String × Event)} {k : String} {v : Event}
    {p : String × Event} (hp : p ∈ insertAssoc l k v) :
    p ∈ l ∨ p = (k, v) := by
  unfold insertAssoc at hp
  split at hp
  · rcases List.mem_map.mp hp with ⟨q, hq, hqe⟩
    by_cases hk : q.1 = k
    · simp [hk] at hqe
      exact Or.inr hqe.symm
    · simp [hk] at hqe
      exact Or.inl (hqe ▸ hq)
  · rcases List.mem_append.mp hp with h | h
    · exact Or.inl h
    · simp at h
      exact Or.inr h

theorem any_fst_eq {l : List (String × Event)} {k : String} :
    (l.any (fun p => p.1 = k)) = true ↔ k ∈ l.map Prod.fst := by
  rw [List.any_eq_true]
  constructor
  · rintro ⟨p, hp, hpk⟩
    exact List.mem_map.mpr ⟨p, hp, of_decide_eq_true hpk⟩
  · intro h
    rcases List.mem_map.mp h with ⟨p, hp, rfl⟩
    exact ⟨p, hp, by simp⟩

theorem fst_insertAssoc (l : List (String × Event)) (k : String) (v : Event) :
    (insertAssoc l k v).map Prod.fst =
      if l.any (fun p => p.1 = k) then l.map Prod.fst
      else l.map Prod.fst ++ [k] := by
  unfold insertAssoc
  split
  · rw [List.map_map]
    apply List.map_congr_left
    intro q hq
    by_cases hk : q.1 = k <;> simp [hk]
  · simp

theorem mem_fst_insertAssoc {l : List (String × Event)} {k : String}
    {v : Event} {x : String} :
    x ∈ (insertAssoc l k v).map Prod.fst ↔ x ∈ l.map Prod.fst ∨ x = k := by
  rw [fst_insertAssoc]
  split
  · rename_i h
    have hk : k ∈ l.map Prod.fst := any_fst_eq.mp h
    constructor
    · exact Or.inl
    · rintro (h' | rfl)
      · exact h'
      · exact hk
  · simp

theorem foldl_indexStep_snd (events : List Event) :
    ∀ (acc : List (String × Event) × List String) (x : String),
      (x ∈ (events.foldl indexStep acc).2 ↔
        x ∈ acc.2 ∨ ∃ e ∈ events, e.is_cancelled = true ∧ generateEventId e = x) := by
  induction events with
  | nil => simp
  | cons e es ih =>
    intro acc x
    rw [List.foldl_cons, ih]
    unfold indexStep
    by_cases hc : e.is_cancelled
    · simp [hc, mem_insertSet]
      tauto
    · simp [hc]

theorem mem_buildIndex_snd {events : List Event} {x : String} :
    x ∈ (buildIndex events).2 ↔
      ∃ e ∈ events, e.is_cancelled = true ∧ generateEventId e = x := by
  rw [buildIndex, foldl_indexStep_snd]
  simp

theorem foldl_indexStep_fst_keys (events : List Event) :
    ∀ (acc : List (String × Event) × List String) (x : String),
      (x ∈ (events.foldl indexStep acc).1.map Prod.fst ↔
        x ∈ acc.1.map Prod.fst ∨ ∃ e ∈ events, generateEventId e = x) := by
  induction events with
  | nil => simp
  | cons e es ih =>
    intro acc x
    rw [List.foldl_cons, ih]
    unfold indexStep
    rw [mem_fst_insertAssoc]
    constructor
    · rintro ((h | rfl) | ⟨e', he', rfl⟩)
      · exact Or.inl h
      · exact Or.inr ⟨e, by simp, rfl⟩
      · exact Or.inr ⟨e', by simp [he'], rfl⟩
    · rintro (h | ⟨e', he', rfl⟩)
      · exact Or.inl (Or.inl h)
      · rcases List.mem_cons.mp he' with rfl | he''
        · exact Or.inl (Or.inr rfl)
        · exact Or.inr ⟨e', he'', rfl⟩

theorem mem_buildIndex_fst_keys {events : List Event} {x : String} :
    x ∈ (buildIndex events).1.map Prod.fst ↔
      ∃ e ∈ events, generateEventId e = x := by
  rw [buildIndex, foldl_indexStep_fst_keys]
  simp

theorem foldl_indexStep_fst_pairs (events : List Event) :
    ∀ (acc : List (String × Event) × List String) (p : String × Event),
      p ∈ (events.foldl indexStep acc).1 →
      p ∈ acc.1 ∨ (p.2 ∈ events ∧ p.1 = generateEventId p.2) := by
  induction events with
  | nil =>
    intro acc p hp
    exact Or.inl hp
  | cons e es ih =>
    intro acc p hp
    rw [List.foldl_cons] at hp
    rcases ih _ p hp with h | ⟨h1, h2⟩
    · unfold indexStep at h
      rcases mem_insertAssoc h with h' | h'
      · exact Or.inl h'
      · subst h'
        exact Or.inr ⟨by simp, rfl⟩
    · exact Or.inr ⟨by simp [h1], h2⟩

theorem mem_buildIndex_fst_pairs {events : List Event} {p : String × Event}
    (hp : p ∈ (buildIndex events).1) :
    p.2 ∈ events ∧ p.1 = generateEventId p.2 := by
  rcases foldl_indexStep_fst_pairs events ([], []) p hp with h | h
  · simp at h
  · exact h

theorem foldl_indexStep_fst_of_nodup :
    ∀ (events : List Event) (acc : List (String × Event) × List String),
      (events.map generateEventId).Nodup →
      (∀ e ∈ events, generateEventId e ∉ acc.1.map Prod.fst) →
      (events.foldl indexStep acc).1 =
        acc.1 ++ events.map (fun e => (generateEventId e, e)) := by
  intro events
  induction events with
  | nil => simp
  | cons e es ih =>
    intro acc hnd hfresh
    rw [List.foldl_cons]
    have hfre : ¬((acc.1.any (fun p => p.1 = generateEventId e)) = true) := by
      intro h
      exact hfresh e (by simp) (any_fst_eq.mp h)
    have hstep : (indexStep acc e).1 = acc.1 ++ [(generateEventId e, e)] := by
      unfold indexStep insertAssoc
      simp only
      rw [if_neg hfre]
    rw [ih (indexStep acc e) (by simpa using hnd.of_cons) ?_]
    · rw [hstep]
      simp
    · intro e' he' hmem
      rw [hstep] at hmem
      simp only [List.map_append, List.mem_append] at hmem
      rcases hmem with h | h
      · exact hfresh e' (by simp [he']) h
      · simp at h
        have hne : generateEventId e ∉ es.map generateEventId := by
          have h' := hnd
          rw [List.map_cons, List.nodup_cons] at h'
          exact h'.1
        exact hne (h ▸ List.mem_map_of_mem generateEventId he')

theorem buildIndex_fst_of_nodup {events : List Event}
    (hnd : (events.map generateEventId).Nodup) :
    (buildIndex events).1 = events.map (fun e => (generateEventId e, e)) := by
  rw [buildIndex, foldl_indexStep_fst_of_nodup events ([], []) hnd (by simp)]
  simp

theorem find?_gid_of_nodup {events : List Event}
    (hnd : (events.map generateEventId).Nodup) {e : Event} (he : e ∈ events) :
    events.find? (fun x => generateEventId x = generateEventId e) = some e := by
  induction events with
  | nil => cases he
  | cons a es ih =>
    rw [List.find?_cons]
    by_cases ha : generateEventId a = generateEventId e
    · have hae : a = e :=
        List.inj_on_of_nodup_map hnd (by simp) he ha
      simp [ha, hae]
    · have he' : e ∈ es := by
        rcases List.mem_cons.mp he with rfl | h
        · exact absurd rfl ha
        · exact h
      have hnd' : (es.map generateEventId).Nodup := by
        have h' := hnd
        rw [List.map_cons, List.nodup_cons] at h'
        exact h'.2
      simpa [ha] using ih hnd' he'

theorem lookupAssoc_mem {l : List (String × Event)} {k : String} {e : Event}
    (h : lookupAssoc l k = some e) : (k, e) ∈ l := by
  unfold lookupAssoc at h
  cases hf : l.find? (fun p => p.1 = k) with
  | none => rw [hf] at h; cases h
  | some p =>
    rw [hf] at h
    simp at h
    have hp := List.find?_some hf
    have hm := List.mem_of_find?_eq_some hf
    have : p.1 = k := of_decide_eq_true hp
    rw [← this, ← h]
    exact hm

theorem lookupAssoc_buildIndex_of_nodup {events : List Event}
    (hnd : (events.map generateEventId).Nodup) {e : Event} (he : e ∈ events) :
    lookupAssoc (buildIndex events).1 (generateEventId e) = some e := by
  rw [lookupAssoc, buildIndex_fst_of_nodup hnd, List.find?_map]
  have : ((fun p => decide (p.1 = generateEventId e)) ∘
      fun e' => (generateEventId e', e')) =
      fun x => decide (generateEventId x = generateEventId e) := rfl
  rw [this, find?_gid_of_nodup hnd he]
  rfl

/-- Each append-only loop of `check_for_changes` is a `filterMap`. -/
theorem foldl_append_eq_filterMap {α β : Type} (f : List β → α → List β)
    (g : α → Option β) (hf : ∀ acc x, f acc x = acc ++ (g x).toList) :
    ∀ (l : List α) (init : List β), l.foldl f init = init ++ l.filterMap g := by
  intro l
  induction l with
  | nil => simp
  | cons x xs ih =>
    intro init
    rw [List.foldl_cons, hf, ih, List.filterMap_cons]
    cases hgx : g x <;> simp [hgx]

theorem foldl_append_nil_eq_filterMap {α β : Type} (f : List β → α → List β)
    (g : α → Option β) (hf : ∀ acc x, f acc x = acc ++ (g x).toList)
    (l : List α) : l.foldl f [] = l.filterMap g :=
  (foldl_append_eq_filterMap f g hf l []).trans (List.nil_append _)

theorem firstNewlyCancelled_eq (ids : List (String × Event))
    (cc : List String) (td tm : String) :
    firstNewlyCancelled ids cc td tm =
      cc.filterMap (fun event_id =>
        (lookupAssoc ids event_id).bind (fun event =>
          if event.date = td || event.date = tm then some event else none)) := by
  unfold firstNewlyCancelled
  apply foldl_append_nil_eq_filterMap
  intro acc x
  cases h : lookupAssoc ids x
  · simp [h]
  · simp only [h, Option.some_bind]
    split <;> simp

theorem mem_firstNewlyCancelled {ids : List (String × Event)}
    {cc : List String} {td tm : String} {e : Event} :
    e ∈ firstNewlyCancelled ids cc td tm ↔
      ∃ event_id ∈ cc, lookupAssoc ids event_id = some e ∧
        (e.date = td ∨ e.date = tm) := by
  rw [firstNewlyCancelled_eq]
  simp only [List.mem_filterMap, Option.bind_eq_some]
  constructor
  · rintro ⟨x, hx, ev, hev, hif⟩
    split at hif
    · rename_i hd
      cases hif
      exact ⟨x, hx, hev, by simpa using hd⟩
    · cases hif
  · rintro ⟨x, hx, hev, hd⟩
    exact ⟨x, hx, e, hev, by simp [hd]⟩

theorem nextNewlyCancelled_eq (ids : List (String × Event))
    (cc prevC : List String) :
    nextNewlyCancelled ids cc prevC =
      cc.filterMap (fun event_id =>
        if event_id ∈ prevC then none else lookupAssoc ids event_id) := by
  unfold nextNewlyCancelled
  apply foldl_append_nil_eq_filterMap
  intro acc x
  split
  · simp
  · cases h : lookupAssoc ids x <;> simp [h]

theorem mem_nextNewlyCancelled {ids : List (String × Event)}
    {cc prevC : List String} {e : Event} :
    e ∈ nextNewlyCancelled ids cc prevC ↔
      ∃ event_id ∈ cc, event_id ∉ prevC ∧
        lookupAssoc ids event_id = some e := by
  rw [nextNewlyCancelled_eq]
  simp only [List.mem_filterMap]
  constructor
  · rintro ⟨x, hx, hif⟩
    split at hif
    · cases hif
    · rename_i hni
      exact ⟨x, hx, hni, hif⟩
  · rintro ⟨x, hx, hni, hev⟩
    exact ⟨x, hx, by simp [hni, hev]⟩

theorem mem_prevIdsOf {prev_events : List Event} {x : String} :
    x ∈ prevIdsOf prev_events ↔
      ∃ e ∈ prev_events, generateEventId e = x := by
  have aux : ∀ (l : List Event) (acc : List String),
      x ∈ l.foldl (fun acc e => insertSet acc (generateEventId e)) acc ↔
        x ∈ acc ∨ ∃ e ∈ l, generateEventId e = x := by
    intro l
    induction l with
    | nil => simp
    | cons e es ih =>
      intro acc
      rw [List.foldl_cons, ih]
      rw [mem_insertSet]
      constructor
      · rintro ((h | rfl) | ⟨e', he', rfl⟩)
        · exact Or.inl h
        · exact Or.inr ⟨e, by simp, rfl⟩
        · exact Or.inr ⟨e', by simp [he'], rfl⟩
      · rintro (h | ⟨e', he', rfl⟩)
        · exact Or.inl (Or.inl h)
        · rcases List.mem_cons.mp he' with rfl | he''
          · exact Or.inl (Or.inr rfl)
          · exact Or.inr ⟨e', he'', rfl⟩
  rw [prevIdsOf, aux]
  simp

theorem newEventsOf_eq (ids : List (String × Event)) (prev_ids : List String) :
    newEventsOf ids prev_ids =
      ids.filterMap (fun p => if p.1 ∈ prev_ids then none else some p.2) := by
  unfold newEventsOf
  apply foldl_append_nil_eq_filterMap
  intro acc x
  split <;> simp

theorem mem_newEventsOf {ids : List (String × Event)} {prev_ids : List String}
    {e : Event} :
    e ∈ newEventsOf ids prev_ids ↔
      ∃ p ∈ ids, p.1 ∉ prev_ids ∧ p.2 = e := by
  rw [newEventsOf_eq]
  simp only [List.mem_filterMap]
  constructor
  · rintro ⟨p, hp, hif⟩
    split at hif
    · cases hif
    · rename_i hni
      cases hif
      exact ⟨p, hp, hni, rfl⟩
  · rintro ⟨p, hp, hni, rfl⟩
    exact ⟨p, hp, by simp [hni]⟩

theorem removedEventsOf_eq (ids : List (String × Event))
    (prev_ids : List String) (prev_events : List Event) :
    removedEventsOf ids prev_ids prev_events =
      prev_ids.filterMap (fun event_id =>
        if ids.any (fun p => p.1 = event_id) then none
        else prev_events.find? (fun e => generateEventId e = event_id)) := by
  unfold removedEventsOf
  apply foldl_append_nil_eq_filterMap
  intro acc x
  split
  · simp
  · cases h : prev_events.find? (fun e => generateEventId e = x) <;> simp [h]

theorem mem_removedEventsOf {ids : List (String × Event)}
    {prev_ids : List String} {prev_events : List Event} {e : Event} :
    e ∈ removedEventsOf ids prev_ids prev_events ↔
      ∃ event_id ∈ prev_ids, ¬(ids.any (fun p => p.1 = event_id) = true) ∧
        prev_events.find? (fun x => generateEventId x = event_id) = some e := by
  rw [removedEventsOf_eq]
  simp only [List.mem_filterMap]
  constructor
  · rintro ⟨x, hx, hif⟩
    split at hif
    · cases hif
    · rename_i hni
      exact ⟨x, hx, hni, hif⟩
  · rintro ⟨x, hx, hni, hev⟩
    exact ⟨x, hx, by simp only [if_neg hni]; exact hev⟩

/-! ### Unfolding equations for `checkForChanges` -/

theorem checkForChanges_none (gc td tm : String) (evs : List Event) :
    checkForChanges none gc td tm evs =
      ({ newly_cancelled :=
           firstNewlyCancelled (buildIndex evs).1 (buildIndex evs).2 td tm
         new_events := []
         removed_events := []
         changed := !(firstNewlyCancelled (buildIndex evs).1 (buildIndex evs).2
           td tm).isEmpty },
       { group_code := gc, events := evs, cancelled_ids := (buildIndex evs).2 }) :=
  rfl

theorem checkForChanges_some (snap0 : ScheduleSnapshot) (gc td tm : String)
    (evs : List Event) :
    checkForChanges (some snap0) gc td tm evs =
      ({ newly_cancelled :=
           nextNewlyCancelled (buildIndex evs).1 (buildIndex evs).2
             snap0.cancelled_ids
         new_events :=
           newEventsOf (buildIndex evs).1 (prevIdsOf snap0.events)
         removed_events :=
           removedEventsOf (buildIndex evs).1 (prevIdsOf snap0.events)
             snap0.events
         changed :=
           !((nextNewlyCancelled (buildIndex evs).1 (buildIndex evs).2
               snap0.cancelled_ids).isEmpty &&
             (newEventsOf (buildIndex evs).1 (prevIdsOf snap0.events)).isEmpty &&
             (removedEventsOf (buildIndex evs).1 (prevIdsOf snap0.events)
               snap0.events).isEmpty) },
       { group_code := gc, events := evs, cancelled_ids := (buildIndex evs).2 }) :=
  rfl

theorem checkForChanges_snd (prev : Option ScheduleSnapshot)
    (gc td tm : String) (evs : List Event) :
    (checkForChanges prev gc td tm evs).2 =
      { group_code := gc, events := evs, cancelled_ids := (buildIndex evs).2 } := by
  cases prev <;> rfl

/-! ### Concrete events used in counterexamples and witnesses -/

/-- A cancelled event dated 2025-01-01. -/
def cEvCanc : Event :=
  { date := "2025-01-01", start_time := "10:00", end_time := "11:30",
    title := "Math", group := "G1", room := "101", lecturer := "",
    is_cancelled := true }

/-- The same occurrence (identical five-tuple) listed again without the
cancellation flag. -/
def cEvDup : Event :=
  { date := "2025-01-01", start_time := "10:00", end_time := "11:30",
    title := "Math", group := "G1", room := "101", lecturer := "",
    is_cancelled := false }

/-- C1 counterexample: on the very first check, when the incoming list
holds two events with the same five-tuple (same derived id) of which
only the first is flagged cancelled, `newly_cancelled` is the last
occurrence for that id — an event that is not flagged cancelled —
contradicting "exactly those incoming events flagged cancelled". -/
theorem c1_counterexample :
    (checkForChanges none "G1" "2025-01-01" "2025-01-02"
        [cEvCanc, cEvDup]).1.newly_cancelled = [cEvDup] ∧
      cEvDup.is_cancelled = false ∧ cEvDup.date = "2025-01-01" := by
  decide

/-- C1 (amended with the proviso that incoming events carry pairwise
distinct derived ids): on the first check of a group, `new_events` and
`removed_events` are empty, the snapshot of the full current list is
stored, and `newly_cancelled` consists exactly of the incoming events
flagged cancelled whose date string equals today or tomorrow (so a
brand-new group whose cancelled events are all dated 10 days out gets
an empty `newly_cancelled`). -/
theorem c1_first_check (gc td tm : String) (evs : List Event)
    (hnd : (evs.map generateEventId).Nodup) :
    (checkForChanges none gc td tm evs).1.new_events = [] ∧
    (checkForChanges none gc td tm evs).1.removed_events = [] ∧
    (checkForChanges none gc td tm evs).2.events = evs ∧
    (∀ e, e ∈ (checkForChanges none gc td tm evs).1.newly_cancelled ↔
      (e ∈ evs ∧ e.is_cancelled = true ∧ (e.date = td ∨ e.date = tm))) := by
  rw [checkForChanges_none]
  refine ⟨rfl, rfl, rfl, fun e => ?_⟩
  simp only
  rw [mem_firstNewlyCancelled]
  constructor
  · rintro ⟨event_id, hid, hlook, hdate⟩
    rcases mem_buildIndex_snd.mp hid with ⟨e', he', hc', hid'⟩
    have hpair := lookupAssoc_mem hlook
    have hpe := mem_buildIndex_fst_pairs hpair
    have hee : e' = e :=
      List.inj_on_of_nodup_map hnd he' hpe.1 (hid'.trans hpe.2)
    exact ⟨hpe.1, hee ▸ hc', hdate⟩
  · rintro ⟨he, hc, hdate⟩
    exact ⟨generateEventId e, mem_buildIndex_snd.mpr ⟨e, he, hc, rfl⟩,
      lookupAssoc_buildIndex_of_nodup hnd he, hdate⟩

/-- C1 witness: the amended statement applied to the spec's own
scenarios — one cancelled event dated today is reported; with the same
event dated 10 days out (2025-01-11), nothing is reported. -/
theorem c1_first_check_witness :
    ([cEvCanc].map generateEventId).Nodup ∧
    cEvCanc ∈ (checkForChanges none "G1" "2025-01-01" "2025-01-02"
      [cEvCanc]).1.newly_cancelled := by
  refine ⟨by decide, ?_⟩
  exact ((c1_first_check "G1" "2025-01-01" "2025-01-02" [cEvCanc]
    (by decide)).2.2.2 cEvCanc).mpr ⟨by decide, by decide, Or.inl (by decide)⟩

/-- C2 counterexample: with a stored snapshot and an incoming list
holding two events with the same derived id (first flagged cancelled,
second not), the first event satisfies the claim's condition — its id
is in the current cancelled set and was not previously cancelled — yet
it is absent from `newly_cancelled` (the loop reports only the dict
value, the last occurrence, for each id). -/
theorem c2_counterexample :
    cEvCanc ∈ [cEvCanc, cEvDup] ∧
    generateEventId cEvCanc ∈ (buildIndex [cEvCanc, cEvDup]).2 ∧
    generateEventId cEvCanc ∉
      (ScheduleSnapshot.mk "G1" [] []).cancelled_ids ∧
    cEvCanc ∉ (checkForChanges (some (ScheduleSnapshot.mk "G1" [] []))
      "G1" "2025-01-01" "2025-01-02" [cEvCanc, cEvDup]).1.newly_cancelled := by
  decide

/-- C2 (amended): with a stored snapshot, provided the incoming
events carry pairwise distinct derived ids, `newly_cancelled` is
exactly the set of incoming events whose id is in the current
cancelled set but not in the previous snapshot's `cancelled_ids`;
and, unconditionally — for every incoming event list, duplicate ids
included — re-running the check with the identical event list right
after any check yields `newly_cancelled = []` and `changed = false`. -/
theorem c2_newly_cancelled (snap0 : ScheduleSnapshot) (gc td tm : String)
    (evs : List Event) :
    ((evs.map generateEventId).Nodup →
      ∀ e, e ∈ (checkForChanges (some snap0) gc td tm evs).1.newly_cancelled ↔
        (e ∈ evs ∧ generateEventId e ∈ (buildIndex evs).2 ∧
         generateEventId e ∉ snap0.cancelled_ids)) ∧
    (∀ prev : Option ScheduleSnapshot,
      (checkForChanges (some ((checkForChanges prev gc td tm evs).2))
        gc td tm evs).1 =
      { newly_cancelled := [], new_events := [], removed_events := [],
        changed := false }) := by
  constructor
  · intro hnd e
    rw [checkForChanges_some]
    simp only
    rw [mem_nextNewlyCancelled]
    constructor
    · rintro ⟨event_id, hid, hni, hlook⟩
      have hpair := lookupAssoc_mem hlook
      have hpe := mem_buildIndex_fst_pairs hpair
      have hide : event_id = generateEventId e := hpe.2
      exact ⟨hpe.1, hide ▸ hid, hide ▸ hni⟩
    · rintro ⟨he, hid, hni⟩
      exact ⟨generateEventId e, hid, hni,
        lookupAssoc_buildIndex_of_nodup hnd he⟩
  · intro prev
    rw [checkForChanges_snd, checkForChanges_some]
    simp only
    have hnc : nextNewlyCancelled (buildIndex evs).1 (buildIndex evs).2
        (buildIndex evs).2 = [] := by
      rw [nextNewlyCancelled_eq, List.filterMap_eq_nil_iff]
      intro a ha
      simp [ha]
    have hne : newEventsOf (buildIndex evs).1 (prevIdsOf evs) = [] := by
      rw [newEventsOf_eq, List.filterMap_eq_nil_iff]
      intro p hp
      have hpe := mem_buildIndex_fst_pairs hp
      have : p.1 ∈ prevIdsOf evs :=
        mem_prevIdsOf.mpr ⟨p.2, hpe.1, hpe.2.symm⟩
      simp [this]
    have hrem : removedEventsOf (buildIndex evs).1 (prevIdsOf evs) evs = [] := by
      rw [removedEventsOf_eq, List.filterMap_eq_nil_iff]
      intro a ha
      rcases mem_prevIdsOf.mp ha with ⟨e, he, hge⟩
      have : a ∈ (buildIndex evs).1.map Prod.fst :=
        mem_buildIndex_fst_keys.mpr ⟨e, he, hge⟩
      rw [if_pos (any_fst_eq.mpr this)]
    rw [hnc, hne, hrem]
    rfl

/-- C2 witness: the spec's three-step scenario — seed a snapshot with
event E not cancelled, check again with E cancelled (E is reported),
check a third time with no change (nothing is reported, not changed). -/
theorem c2_newly_cancelled_witness :
    ([cEvCanc].map generateEventId).Nodup ∧
    cEvCanc ∈ (checkForChanges
      (some ((checkForChanges none "G1" "2025-01-01" "2025-01-02"
        [cEvDup]).2))
      "G1" "2025-01-01" "2025-01-02" [cEvCanc]).1.newly_cancelled ∧
    (checkForChanges
      (some ((checkForChanges
        (some ((checkForChanges none "G1" "2025-01-01" "2025-01-02"
          [cEvDup]).2))
        "G1" "2025-01-01" "2025-01-02" [cEvCanc]).2))
      "G1" "2025-01-01" "2025-01-02" [cEvCanc]).1 =
      { newly_cancelled := [], new_events := [], removed_events := [],
        changed := false } := by
  refine ⟨by decide, ?_, ?_⟩
  · exact ((c2_newly_cancelled
      ((checkForChanges none "G1" "2025-01-01" "2025-01-02" [cEvDup]).2)
      "G1" "2025-01-01" "2025-01-02" [cEvCanc]).1 (by decide) cEvCanc).mpr
      ⟨by decide, by decide, by decide⟩
  · exact (c2_newly_cancelled
      ((checkForChanges none "G1" "2025-01-01" "2025-01-02" [cEvDup]).2)
      "G1" "2025-01-01" "2025-01-02" [cEvCanc]).2
      (some ((checkForChanges none "G1" "2025-01-01" "2025-01-02" [cEvDup]).2))

/-- An event in room 101. -/
def cEvRoomA : Event :=
  { date := "2025-01-03", start_time := "10:00", end_time := "11:30",
    title := "Math", group := "G1", room := "101", lecturer := "",
    is_cancelled := false }

/-- The same occurrence listed a second time in room 202 (same
five-tuple, hence the same derived id). -/
def cEvRoomB : Event :=
  { date := "2025-01-03", start_time := "10:00", end_time := "11:30",
    title := "Math", group := "G1", room := "202", lecturer := "",
    is_cancelled := false }

/-- C6 counterexample: when the previous snapshot holds two events with
the same derived id (same slot listed in two rooms) and both vanish
from the fetch result, only the first of them is put into
`removed_events`; the second satisfies the claim's condition yet is
not reported. -/
theorem c6_counterexample :
    cEvRoomB ∈ (ScheduleSnapshot.mk "G1" [cEvRoomA, cEvRoomB]
      []).events ∧
    generateEventId cEvRoomB ∉ ([] : List Event).map generateEventId ∧
    (checkForChanges (some (ScheduleSnapshot.mk "G1" [cEvRoomA, cEvRoomB] []))
      "G1" "2025-01-01" "2025-01-02" []).1.removed_events = [cEvRoomA] ∧
    cEvRoomB ∉ (checkForChanges
      (some (ScheduleSnapshot.mk "G1" [cEvRoomA, cEvRoomB] []))
      "G1" "2025-01-01" "2025-01-02" []).1.removed_events := by
  decide

/-- C6 (amended with the proviso that the previous snapshot's events
carry pairwise distinct derived ids): `removed_events` is exactly the
set of events of the previous snapshot whose derived id no longer
occurs among the incoming events' ids, and no removed event ever
appears in `newly_cancelled`. -/
theorem c6_removed_events (snap0 : ScheduleSnapshot) (gc td tm : String)
    (evs : List Event)
    (hnd : (snap0.events.map generateEventId).Nodup) :
    (∀ e, e ∈ (checkForChanges (some snap0) gc td tm evs).1.removed_events ↔
      (e ∈ snap0.events ∧ generateEventId e ∉ evs.map generateEventId)) ∧
    (∀ e, e ∈ (checkForChanges (some snap0) gc td tm evs).1.removed_events →
      e ∉ (checkForChanges (some snap0) gc td tm evs).1.newly_cancelled) := by
  have hkey : ∀ x : String,
      ((buildIndex evs).1.any (fun p => p.1 = x)) = true ↔
        x ∈ evs.map generateEventId := by
    intro x
    rw [any_fst_eq, mem_buildIndex_fst_keys]
    simp [eq_comm]
  constructor
  · intro e
    rw [checkForChanges_some]
    simp only
    rw [mem_removedEventsOf]
    constructor
    · rintro ⟨event_id, hid, hany, hfind⟩
      have he := List.mem_of_find?_eq_some hfind
      have hgid : generateEventId e = event_id := by
        simpa using List.find?_some hfind
      refine ⟨he, fun hmem => hany ?_⟩
      rw [hkey, ← hgid]
      exact hmem
    · rintro ⟨he, hni⟩
      refine ⟨generateEventId e, mem_prevIdsOf.mpr ⟨e, he, rfl⟩, ?_, ?_⟩
      · rw [hkey]
        exact hni
      · exact find?_gid_of_nodup hnd he
  · intro e hrem hnc
    rw [checkForChanges_some] at hrem hnc
    simp only at hrem hnc
    rcases mem_removedEventsOf.mp hrem with ⟨event_id, _, hany, hfind⟩
    rcases mem_nextNewlyCancelled.mp hnc with ⟨id2, _, _, hlook⟩
    have hpair := lookupAssoc_mem hlook
    have hpe := mem_buildIndex_fst_pairs hpair
    have hgid : generateEventId e = event_id := by
      simpa using List.find?_some hfind
    apply hany
    rw [hkey, hgid.symm]
    exact List.mem_map_of_mem generateEventId hpe.1

/-- C6 witness: the spec's scenario — an event present in the first
snapshot that is simply missing (not flagged cancelled) from the next
fetch lands in `removed_events` and not in `newly_cancelled`. -/
theorem c6_removed_events_witness :
    ((ScheduleSnapshot.mk "G1" [cEvRoomA] []).events.map
      generateEventId).Nodup ∧
    cEvRoomA ∈ (checkForChanges (some (ScheduleSnapshot.mk "G1" [cEvRoomA] []))
      "G1" "2025-01-01" "2025-01-02" []).1.removed_events ∧
    cEvRoomA ∉ (checkForChanges (some (ScheduleSnapshot.mk "G1" [cEvRoomA] []))
      "G1" "2025-01-01" "2025-01-02" []).1.newly_cancelled := by
  have h := c6_removed_events (ScheduleSnapshot.mk "G1" [cEvRoomA] [])
    "G1" "2025-01-01" "2025-01-02" [] (by decide)
  have hmem : cEvRoomA ∈ (checkForChanges
      (some (ScheduleSnapshot.mk "G1" [cEvRoomA] []))
      "G1" "2025-01-01" "2025-01-02" []).1.removed_events :=
    (h.1 cEvRoomA).mpr ⟨by decide, by decide⟩
  exact ⟨by decide, hmem, h.2 cEvRoomA hmem⟩

/-- C7: the event identity function is deterministic in exactly the
five-tuple (date, start_time, end_time, title, group) — two events
agreeing on those five fields get the same id no matter what their
room, lecturer or cancellation flag are (and computing it twice on the
same tuple trivially yields the same id). -/
theorem c7_event_id_five_tuple (e e' : Event)
    (h1 : e.date = e'.date) (h2 : e.start_time = e'.start_time)
    (h3 : e.end_time = e'.end_time) (h4 : e.title = e'.title)
    (h5 : e.group = e'.group) :
    generateEventId e = generateEventId e' := by
  rw [generateEventId, generateEventId, h1, h2, h3, h4, h5]

/-- The occurrence of `cEvCanc` with a different room, a different
lecturer and no cancellation flag. -/
def cEvVariant : Event :=
  { date := "2025-01-01", start_time := "10:00", end_time := "11:30",
    title := "Math", group := "G1", room := "303", lecturer := "Dr. X",
    is_cancelled := false }

/-- C7 witness: two concrete events differing in room, lecturer and
cancellation flag share an id. -/
theorem c7_event_id_five_tuple_witness :
    (cEvCanc.room ≠ cEvVariant.room ∧ cEvCanc.lecturer ≠ cEvVariant.lecturer ∧
     cEvCanc.is_cancelled ≠ cEvVariant.is_cancelled) ∧
    generateEventId cEvCanc = generateEventId cEvVariant :=
  ⟨by decide, c7_event_id_five_tuple cEvCanc cEvVariant rfl rfl rfl rfl rfl⟩

/-- C8: after any call to `checkForChanges` — first-observation branch
(`prev = none`) or subsequent branch alike — the stored snapshot's
`cancelled_ids` is a subset of the derived ids of the events recorded
in that same snapshot. -/
theorem c8_snapshot_invariant (prev : Option ScheduleSnapshot)
    (gc td tm : String) (evs : List Event) (x : String)
    (hx : x ∈ ((checkForChanges prev gc td tm evs).2).cancelled_ids) :
    x ∈ ((checkForChanges prev gc td tm evs).2).events.map generateEventId := by
  rw [checkForChanges_snd] at hx ⊢
  rcases mem_buildIndex_snd.mp hx with ⟨e, he, _, hid⟩
  exact hid ▸ List.mem_map_of_mem generateEventId he

/-- C8 witness: the invariant at a concrete first observation of one
cancelled event. -/
theorem c8_snapshot_invariant_witness :
    generateEventId cEvCanc ∈
      ((checkForChanges none "G1" "2025-01-01" "2025-01-02"
        [cEvCanc]).2).cancelled_ids ∧
    generateEventId cEvCanc ∈
      ((checkForChanges none "G1" "2025-01-01" "2025-01-02"
        [cEvCanc]).2).events.map generateEventId :=
  ⟨by decide, c8_snapshot_invariant none "G1" "2025-01-01" "2025-01-02"
    [cEvCanc] (generateEventId cEvCanc) (by decide)⟩

/-- C9: when the event-fetch collaborator raises, `check_group`
returns the error result and the stored snapshot for the group is
left exactly as it was; no diff is computed for the group in that
cycle. -/
theorem c9_checkGroup_fetch_error (prev : Option ScheduleSnapshot)
    (gc td tm msg : String) :
    checkGroup prev gc td tm (Except.error msg) =
      (CheckResult.error msg, prev) :=
  rfl

/-- An event whose `date` field is not a parseable calendar date. -/
def cEvBadDate : Event :=
  { date := "not-a-date", start_time := "10:00", end_time := "11:30",
    title := "Math", group := "G1", room := "", lecturer := "",
    is_cancelled := false }

/-- C10 counterexample: an incoming event whose date field is no
calendar date at all is NOT excluded from the current index — it is
indexed under its id and takes part in the diff (here it surfaces in
`new_events`), contradicting the claimed exclusion. -/
theorem c10_counterexample :
    lookupAssoc (buildIndex [cEvBadDate]).1 (generateEventId cEvBadDate) =
      some cEvBadDate ∧
    (checkForChanges (some (ScheduleSnapshot.mk "G1" [] []))
      "G1" "2025-01-01" "2025-01-02" [cEvBadDate]).1.new_events =
      [cEvBadDate] := by
  decide

/-- C10 (amended): `check_for_changes` never excludes an incoming
event from the current index on account of its date — the date is
used only as an opaque string — so every incoming event's derived id
is a key of the index; missing fields enter as empty-string defaults
and nothing crashes. -/
theorem c10_index_keeps_all (evs : List Event) (e : Event) (he : e ∈ evs) :
    generateEventId e ∈ (buildIndex evs).1.map Prod.fst :=
  mem_buildIndex_fst_keys.mpr ⟨e, he, rfl⟩

/-- C10 witness: the unparseable-date event is a key of the index it
belongs to. -/
theorem c10_index_keeps_all_witness :
    cEvBadDate ∈ [cEvBadDate] ∧
    generateEventId cEvBadDate ∈ (buildIndex [cEvBadDate]).1.map Prod.fst :=
  ⟨by decide, c10_index_keeps_all [cEvBadDate] cEvBadDate (by decide)⟩

/-!
Part 2 embeds `TSIBot._parse_reminder_input` of `app/bot/bot_v2.py`
(the natural-language reminder parser).

Modelling notes, faithful to the source:
* `now = datetime.now(tz)` is a timezone-aware instant; the routine
  only ever adds non-negative `timedelta`s to it, calls
  `.replace(hour=…, minute=…, second=0, microsecond=0)`, compares with
  `<` and compares `.date()`s.  We model such a datetime as a wall
  clock: a day index plus microseconds within the day (`PyDateTime`);
  `timedelta` arithmetic and comparison act on the absolute
  microsecond count.  `replace` keeps the day and validates
  `0 <= hour <= 23`, `0 <= minute <= 59`, raising `ValueError`
  otherwise, which we model with `Except`.
* Python's `timedelta(...)` constructor raises `OverflowError` when
  the normalized magnitude exceeds 999999999 days, and
  `datetime + timedelta` raises `OverflowError` past `datetime.max`
  (9999-12-31).  The plain arithmetic (`addUsec`) totalizes these,
  which is adequate for claims conditioned on a returned value; the
  checked layer (`addTimedelta` and the `…Checked` parser stages
  below) carries both overflow checks, and the totality claim is
  settled against `parseFireAtChecked`.
* The regular-expression layer is embedded at match granularity: a
  `ReminderMatches` value records, for one input string, the groups
  of the `через N час/мин` search, of the `через N дней` search, the
  three substring tests `послезавтра`/`завтра`/`сегодня` (applied to
  the lowered text, so `tomorrow`/`today` fold into their flags), and
  the `(\d{1,2})[:\.](\d{2})` clock match — a 1-2 digit hour and a
  2-digit minute, each in 0..99.  Every concrete input string induces
  exactly one such record, so universally quantified theorems over
  `ReminderMatches` cover all input strings; the group strings come
  from the lowered text, hence are already lower-case and stripped.
* The computation of the reminder *text* is a chain of total string
  substitutions and is not modelled; the claims concern `fire_at`.
-/

deriving instance DecidableEq for Except

def usecPerDay : Nat := 86400000000

def usecPerHour : Nat := 3600000000

def usecPerMin : Nat := 60000000

/-- A timezone-aware Python datetime as a wall clock: day index and
microseconds within the day (normalized values keep `usec < usecPerDay`). -/
structure PyDateTime where
  day : Nat
  usec : Nat
deriving DecidableEq, Repr

/-- Absolute microsecond count of an instant. -/
def toAbs (t : PyDateTime) : Nat :=
  t.day * usecPerDay + t.usec

/-- `t + timedelta(microseconds=n)` (normalizing). -/
def addUsec (t : PyDateTime) (n : Nat) : PyDateTime :=
  { day := (toAbs t + n) / usecPerDay, usec := (toAbs t + n) % usecPerDay }

/-- `t.replace(hour=hour, minute=minute, second=0, microsecond=0)` —
raises `ValueError` on an out-of-range hour or minute. -/
def replaceHM (t : PyDateTime) (hour minute : Nat) :
    Except String PyDateTime :=
  if hour ≤ 23 ∧ minute ≤ 59 then
    Except.ok { day := t.day, usec := hour * usecPerHour + minute * usecPerMin }
  else Except.error "ValueError"

/-- `t.replace(hour=9, minute=0, second=0, microsecond=0)` (always in
range). -/
def replaceNine (t : PyDateTime) : PyDateTime :=
  { day := t.day, usec := 9 * usecPerHour }

/-- `t.replace(second=0, microsecond=0)`: truncate to the minute. -/
def zeroSec (t : PyDateTime) : PyDateTime :=
  { day := t.day, usec := t.usec / usecPerMin * usecPerMin }

/-- The `word_to_num` table of `_parse_reminder_input`. -/
def wordToNum : List (String × Nat) :=
  [("один", 1), ("одну", 1), ("одна", 1),
   ("два", 2), ("две", 2), ("двух", 2),
   ("три", 3), ("трёх", 3), ("трех", 3),
   ("четыре", 4), ("четырёх", 4), ("четырех", 4),
   ("пять", 5), ("пяти", 5),
   ("шесть", 6), ("шести", 6),
   ("семь", 7), ("семи", 7),
   ("восемь", 8), ("восьми", 8),
   ("девять", 9), ("девяти", 9),
   ("десять", 10), ("десяти", 10),
   ("пятнадцать", 15), ("двадцать", 20), ("тридцать", 30),
   ("полчаса", 30), ("пол часа", 30)]

/-- Python `str.isdigit` on the relevant alphabet: non-empty and all
decimal digits. -/
def strIsDigits (s : String) : Bool :=
  !s.isEmpty && s.toList.all Char.isDigit

/-- `int(s)` for an all-digit string. -/
def strToNatVal (s : String) : Nat :=
  s.toList.foldl (fun a c => a * 10 + (c.toNat - 48)) 0

/-- `extract_number`: digits parse as an int, otherwise the word table
is consulted (`word_to_num.get`), else `None`.  The argument arrives
already lower-cased and stripped (it is a regex group over the lowered
text). -/
def extractNumber (s : String) : Option Nat :=
  if strIsDigits s then some (strToNatVal s)
  else (wordToNum.find? (fun p => p.1 = s)).map (fun p => p.2)

/-- Does the character list start with the pattern? -/
def charsStartWith : List Char → List Char → Bool
  | _, [] => true
  | [], _ :: _ => false
  | c :: cs, p :: ps => c = p && charsStartWith cs ps

/-- Does the pattern occur as a contiguous run of the character list? -/
def charsContain (s pat : List Char) : Bool :=
  match s with
  | [] => pat.isEmpty
  | _ :: cs => charsStartWith s pat || charsContain cs pat

/-- Python's `pat in s` substring test. -/
def strContains (s pat : String) : Bool :=
  charsContain s.toList pat.toList

/-- The regex-match outcome of one input string: group 1 and optional
group 2 of the `через N час/мин` search, group 1 of the `через N дней`
search, the three day-anchor substring tests on the lowered text, and
the `H:MM` clock match (hour 0..99 on 1-2 digits, minute 0..99 on 2
digits) found in the cleaned reminder text. -/
structure ReminderMatches where
  through : Option (String × Option String)
  days : Option String
  hasPoslezavtra : Bool
  hasZavtra : Bool
  hasSegodnya : Bool
  timeMatch : Option (Nat × Nat)
deriving DecidableEq, Repr

/-- Parser rule 2, `через X часов/минут` — fires only when
`extract_number` yields a truthy (non-zero) amount; `полчаса` means 30
minutes, a unit containing `час`/`hour` means hours, anything else
(minutes or no unit) means minutes. -/
def throughRule (m : ReminderMatches) (now : PyDateTime) :
    Option PyDateTime :=
  match m.through with
  | some (g1, g2) =>
    match extractNumber g1 with
    | some amount =>
      if amount = 0 then none
      else if strContains g1 "полчаса" || strContains g1 "пол часа" then
        some (addUsec now (30 * usecPerMin))
      else if strContains (g2.getD "") "час" ||
          strContains (g2.getD "") "hour" then
        some (addUsec now (amount * usecPerHour))
      else
        some (addUsec now (amount * usecPerMin))
    | none => none
  | none => none

/-- Parser rule 3, `через X дней` — fires only when rule 2 left
`reminder_time` unset and the amount is truthy. -/
def daysRule (m : ReminderMatches) (now : PyDateTime)
    (rt0 : Option PyDateTime) : Option PyDateTime :=
  match m.days with
  | some g1 =>
    if rt0 = none then
      match extractNumber g1 with
      | some d => if d = 0 then none else some (addUsec now (d * usecPerDay))
      | none => none
    else rt0
  | none => rt0

/-- Parser rule 4, the `послезавтра`/`завтра`/`сегодня` elif chain —
overwrites whatever rules 2-3 produced when an anchor word occurs. -/
def dayAnchorRule (m : ReminderMatches) (now : PyDateTime)
    (rt1 : Option PyDateTime) : Option PyDateTime :=
  if m.hasPoslezavtra then some (addUsec now (2 * usecPerDay))
  else if m.hasZavtra then some (addUsec now usecPerDay)
  else if m.hasSegodnya then some now
  else rt1

/-- Parser rules 2-4 in source order; yields `reminder_time` before
the clock-time step (`none` = still unset). -/
def anchorStage (m : ReminderMatches) (now : PyDateTime) :
    Option PyDateTime :=
  dayAnchorRule m now (daysRule m now (throughRule m now))

/-- The parser up to (and including) the clock-time step, the 09:00
defaulting and the 1-hour fallback — i.e. `reminder_time` just before
the final past-time roll-forward. -/
def naiveFireAt (m : ReminderMatches) (now : PyDateTime) :
    Except String PyDateTime :=
  let rt1 := anchorStage m now
  match m.timeMatch with
  | some hm => replaceHM (rt1.getD now) hm.1 hm.2
  | none =>
    match rt1 with
    | some rt =>
      if rt.day ≠ now.day then Except.ok (replaceNine rt)
      else Except.ok rt
    | none => Except.ok (zeroSec (addUsec now usecPerHour))

/-- `_parse_reminder_input`'s `fire_at`: the naive result, rolled
forward by exactly one day when it lies strictly in the past. -/
def parseFireAt (m : ReminderMatches) (now : PyDateTime) :
    Except String PyDateTime :=
  match naiveFireAt m now with
  | Except.error e => Except.error e
  | Except.ok rt =>
    Except.ok (if toAbs rt < toAbs now then addUsec rt usecPerDay else rt)

/-- Magnitude bound of `datetime.timedelta` in microseconds:
999999999 days, 23:59:59.999999. -/
def timedeltaMaxUsec : Nat := 999999999 * 86400000000 + 86399999999

/-- Last representable instant, `datetime.max` = 9999-12-31
23:59:59.999999, as an absolute microsecond count (day index 3652058
of the proleptic Gregorian calendar starting at 0001-01-01). -/
def datetimeMaxAbs : Nat := 3652058 * 86400000000 + 86399999999

/-- `t + timedelta(microseconds=n)` with Python's two overflow
checks in evaluation order: the `timedelta(...)` constructor's
magnitude bound, then the `datetime + timedelta` range bound; both
raise `OverflowError`. -/
def addTimedelta (t : PyDateTime) (n : Nat) : Except String PyDateTime :=
  if timedeltaMaxUsec < n then Except.error "OverflowError"
  else if datetimeMaxAbs < toAbs t + n then Except.error "OverflowError"
  else Except.ok (addUsec t n)

/-- Parser rule 2 with the overflow-checked arithmetic. -/
def throughRuleChecked (m : ReminderMatches) (now : PyDateTime) :
    Except String (Option PyDateTime) :=
  match m.through with
  | some (g1, g2) =>
    match extractNumber g1 with
    | some amount =>
      if amount = 0 then Except.ok none
      else if strContains g1 "полчаса" || strContains g1 "пол часа" then
        (addTimedelta now (30 * usecPerMin)).map some
      else if strContains (g2.getD "") "час" ||
          strContains (g2.getD "") "hour" then
        (addTimedelta now (amount * usecPerHour)).map some
      else
        (addTimedelta now (amount * usecPerMin)).map some
    | none => Except.ok none
  | none => Except.ok none

/-- Parser rule 3 with the overflow-checked arithmetic. -/
def daysRuleChecked (m : ReminderMatches) (now : PyDateTime)
    (rt0 : Option PyDateTime) : Except String (Option PyDateTime) :=
  match m.days with
  | some g1 =>
    if rt0 = none then
      match extractNumber g1 with
      | some d =>
        if d = 0 then Except.ok none
        else (addTimedelta now (d * usecPerDay)).map some
      | none => Except.ok none
    else Except.ok rt0
  | none => Except.ok rt0

/-- Parser rule 4 with the overflow-checked arithmetic. -/
def dayAnchorRuleChecked (m : ReminderMatches) (now : PyDateTime)
    (rt1 : Option PyDateTime) : Except String (Option PyDateTime) :=
  if m.hasPoslezavtra then (addTimedelta now (2 * usecPerDay)).map some
  else if m.hasZavtra then (addTimedelta now usecPerDay).map some
  else if m.hasSegodnya then Except.ok (some now)
  else Except.ok rt1

/-- Rules 2-4 in source order with checked arithmetic; a raised
`OverflowError` aborts the whole routine at once, as in Python. -/
def anchorStageChecked (m : ReminderMatches) (now : PyDateTime) :
    Except String (Option PyDateTime) :=
  match throughRuleChecked m now with
  | Except.error e => Except.error e
  | Except.ok rt0 =>
    match daysRuleChecked m now rt0 with
    | Except.error e => Except.error e
    | Except.ok rt1 => dayAnchorRuleChecked m now rt1

/-- The parser up to the final past-time roll, with checked
arithmetic (the 1-hour fallback addition may also overflow). -/
def naiveFireAtChecked (m : ReminderMatches) (now : PyDateTime) :
    Except String PyDateTime :=
  match anchorStageChecked m now with
  | Except.error e => Except.error e
  | Except.ok rt1 =>
    match m.timeMatch with
    | some hm => replaceHM (rt1.getD now) hm.1 hm.2
    | none =>
      match rt1 with
      | some rt =>
        if rt.day ≠ now.day then Except.ok (replaceNine rt)
        else Except.ok rt
      | none => (addTimedelta now usecPerHour).map zeroSec

/-- `_parse_reminder_input`'s `fire_at` with checked arithmetic: the
final `+= timedelta(days=1)` roll is itself a checked addition. -/
def parseFireAtChecked (m : ReminderMatches) (now : PyDateTime) :
    Except String PyDateTime :=
  match naiveFireAtChecked m now with
  | Except.error e => Except.error e
  | Except.ok rt =>
    if toAbs rt < toAbs now then addTimedelta rt usecPerDay
    else Except.ok rt

/-! ### Arithmetic facts about the datetime model -/

theorem usecPerDay_pos : 0 < usecPerDay := by
  rw [usecPerDay]
  omega

theorem toAbs_addUsec (t : PyDateTime) (n : Nat) :
    toAbs (addUsec t n) = toAbs t + n := by
  show (toAbs t + n) / usecPerDay * usecPerDay + (toAbs t + n) % usecPerDay =
    toAbs t + n
  rw [Nat.mul_comm]
  exact Nat.div_add_mod _ _

theorem usec_addUsec_lt (t : PyDateTime) (n : Nat) :
    (addUsec t n).usec < usecPerDay :=
  Nat.mod_lt _ usecPerDay_pos

theorem day_eq_toAbs_div (t : PyDateTime) (ht : t.usec < usecPerDay) :
    t.day = toAbs t / usecPerDay := by
  rw [toAbs, Nat.mul_comm, Nat.mul_add_div usecPerDay_pos,
    Nat.div_eq_of_lt ht, Nat.add_zero]

theorem day_addUsec_ge (t : PyDateTime) (n : Nat) (ht : t.usec < usecPerDay) :
    t.day ≤ (addUsec t n).day := by
  have h1 : (addUsec t n).day = (toAbs t + n) / usecPerDay := rfl
  rw [h1, day_eq_toAbs_div t ht]
  exact Nat.div_le_div_right (Nat.le_add_right _ _)

/-- The forward-offset property every anchor-stage value enjoys. -/
def FwdOf (now rt : PyDateTime) : Prop :=
  toAbs now ≤ toAbs rt ∧ rt.usec < usecPerDay ∧ now.day ≤ rt.day

theorem fwdOf_addUsec (now : PyDateTime) (hn : now.usec < usecPerDay)
    (n : Nat) : FwdOf now (addUsec now n) :=
  ⟨by rw [toAbs_addUsec]; exact Nat.le_add_right _ _,
    usec_addUsec_lt now n, day_addUsec_ge now n hn⟩

theorem throughRule_spec {m : ReminderMatches} {now rt : PyDateTime}
    (hn : now.usec < usecPerDay) (h : throughRule m now = some rt) :
    FwdOf now rt := by
  unfold throughRule at h
  split at h
  · split at h
    · split at h
      · cases h
      · split at h
        · cases h
          exact fwdOf_addUsec now hn _
        · split at h <;> (cases h; exact fwdOf_addUsec now hn _)
    · cases h
  · cases h

theorem daysRule_spec {m : ReminderMatches} {now rt : PyDateTime}
    {rt0 : Option PyDateTime} (hn : now.usec < usecPerDay)
    (h0 : ∀ x, rt0 = some x → FwdOf now x)
    (h : daysRule m now rt0 = some rt) : FwdOf now rt := by
  unfold daysRule at h
  split at h
  · split at h
    · split at h
      · split at h
        · cases h
        · cases h
          exact fwdOf_addUsec now hn _
      · cases h
    · exact h0 rt h
  · exact h0 rt h

theorem dayAnchorRule_spec {m : ReminderMatches} {now rt : PyDateTime}
    {rt1 : Option PyDateTime} (hn : now.usec < usecPerDay)
    (h1 : ∀ x, rt1 = some x → FwdOf now x)
    (h : dayAnchorRule m now rt1 = some rt) : FwdOf now rt := by
  unfold dayAnchorRule at h
  split at h
  · cases h
    exact fwdOf_addUsec now hn _
  · split at h
    · cases h
      exact fwdOf_addUsec now hn _
    · split at h
      · cases h
        exact ⟨Nat.le_refl _, hn, Nat.le_refl _⟩
      · exact h1 rt h

/-- Every value the anchor stage can produce is `now` pushed forward
by a non-negative offset: not earlier than `now`, normalized, and not
on an earlier day. -/
theorem anchorStage_spec {m : ReminderMatches} {now rt : PyDateTime}
    (hn : now.usec < usecPerDay) (h : anchorStage m now = some rt) :
    toAbs now ≤ toAbs rt ∧ rt.usec < usecPerDay ∧ now.day ≤ rt.day := by
  unfold anchorStage at h
  exact dayAnchorRule_spec hn
    (fun x hx => daysRule_spec hn
      (fun y hy => throughRule_spec hn hy) hx) h

theorem parseFireAt_ok {m : ReminderMatches} {now v : PyDateTime}
    (hv : naiveFireAt m now = Except.ok v) :
    parseFireAt m now =
      Except.ok (if toAbs v < toAbs now then addUsec v usecPerDay else v) := by
  unfold parseFireAt
  rw [hv]

theorem naiveFireAt_clock {m : ReminderMatches} {now : PyDateTime}
    {hm : Nat × Nat} (htm : m.timeMatch = some hm) :
    naiveFireAt m now =
      replaceHM ((anchorStage m now).getD now) hm.1 hm.2 := by
  simp only [naiveFireAt, htm]

theorem naiveFireAt_noclock_anchor {m : ReminderMatches}
    {now rt : PyDateTime} (htm : m.timeMatch = none)
    (ha : anchorStage m now = some rt) :
    naiveFireAt m now =
      (if rt.day ≠ now.day then Except.ok (replaceNine rt)
       else Except.ok rt) := by
  simp only [naiveFireAt, htm, ha]

theorem naiveFireAt_fallback {m : ReminderMatches} {now : PyDateTime}
    (htm : m.timeMatch = none) (ha : anchorStage m now = none) :
    naiveFireAt m now = Except.ok (zeroSec (addUsec now usecPerHour)) := by
  simp only [naiveFireAt, htm, ha]

/-- Whatever value the parser holds just before the final past-time
check is normalized and not on an earlier day than `now`. -/
theorem naiveFireAt_spec {m : ReminderMatches} {now v : PyDateTime}
    (hn : now.usec < usecPerDay) (h : naiveFireAt m now = Except.ok v) :
    now.day ≤ v.day ∧ v.usec < usecPerDay := by
  cases htm : m.timeMatch with
  | some hm =>
    rw [naiveFireAt_clock htm] at h
    unfold replaceHM at h
    split at h
    · rename_i hb
      cases h
      constructor
      · cases ha : anchorStage m now with
        | none => simp [ha]
        | some rt =>
          have hspec := anchorStage_spec hn ha
          simpa [ha] using hspec.2.2
      · simp only [usecPerHour, usecPerMin, usecPerDay]
        omega
    · cases h
  | none =>
    cases ha : anchorStage m now with
    | some rt =>
      rw [naiveFireAt_noclock_anchor htm ha] at h
      have hspec := anchorStage_spec hn ha
      split at h
      · cases h
        refine ⟨hspec.2.2, ?_⟩
        simp only [replaceNine, usecPerHour, usecPerDay]
        omega
      · cases h
        exact ⟨hspec.2.2, hspec.2.1⟩
    | none =>
      rw [naiveFireAt_fallback htm ha] at h
      cases h
      constructor
      · exact day_addUsec_ge now usecPerHour hn
      · calc (addUsec now usecPerHour).usec / usecPerMin * usecPerMin
            ≤ (addUsec now usecPerHour).usec := Nat.div_mul_le_self _ _
          _ < usecPerDay := usec_addUsec_lt now usecPerHour

/-- A concrete `now`: day 20000 of the wall-clock calendar, 10:00:00. -/
def cNow : PyDateTime := ⟨20000, 36000000000⟩

/-- Match record of an input like `"через 30 минут сдать отчет"`:
rule 2 fires with amount 30 and unit `мин`, nothing else matches. -/
def mThrough30 : ReminderMatches :=
  { through := some ("30", some "мин"), days := none,
    hasPoslezavtra := false, hasZavtra := false, hasSegodnya := false,
    timeMatch := none }

/-- C3 counterexample: for `"через 30 минут …"` at 10:00 the offset
rule (rule 2) fires and no clock time matches, yet the resulting
time-of-day is 10:30, not 09:00 — the code only defaults to 09:00
when the computed date differs from today's. -/
theorem c3_counterexample :
    (anchorStage mThrough30 cNow).isSome = true ∧
    mThrough30.timeMatch = none ∧
    parseFireAt mThrough30 cNow = Except.ok ⟨20000, 37800000000⟩ ∧
    (37800000000 : Nat) ≠ 9 * usecPerHour := by
  refine ⟨by decide, rfl, by decide, by decide⟩

/-- C3 (amended): when an anchor/offset from rules 2-4 fired, no
explicit clock time matched, and the computed `reminder_time` falls on
a calendar date different from today's, the parser sets the resulting
time-of-day to 09:00 (a same-day result keeps its clock time, as the
counterexample shows). -/
theorem c3_default_nine (m : ReminderMatches) (now rt : PyDateTime)
    (hn : now.usec < usecPerDay) (ha : anchorStage m now = some rt)
    (htm : m.timeMatch = none) (hday : rt.day ≠ now.day) :
    parseFireAt m now = Except.ok ⟨rt.day, 9 * usecPerHour⟩ := by
  have hspec := anchorStage_spec hn ha
  have hnaive : naiveFireAt m now = Except.ok (replaceNine rt) := by
    rw [naiveFireAt_noclock_anchor htm ha, if_pos hday]
  rw [parseFireAt_ok hnaive]
  have hnot : ¬ toAbs (replaceNine rt) < toAbs now := by
    have hlt : now.day < rt.day :=
      Nat.lt_of_le_of_ne hspec.2.2 (Ne.symm hday)
    simp only [toAbs, replaceNine, usecPerDay, usecPerHour] at *
    omega
  rw [if_neg hnot]
  rfl

/-- Match record of an input like `"завтра сдать отчет"`. -/
def mZavtra : ReminderMatches :=
  { through := none, days := none, hasPoslezavtra := false,
    hasZavtra := true, hasSegodnya := false, timeMatch := none }

/-- C3 witness: `"завтра …"` at day 20000, 10:00 — the anchor lands on
day 20001 and the fire time becomes day 20001 at 09:00. -/
theorem c3_default_nine_witness :
    cNow.usec < usecPerDay ∧
    anchorStage mZavtra cNow = some ⟨20001, 36000000000⟩ ∧
    mZavtra.timeMatch = none ∧
    (20001 : Nat) ≠ cNow.day ∧
    parseFireAt mZavtra cNow = Except.ok ⟨20001, 9 * usecPerHour⟩ :=
  ⟨by decide, by decide, rfl, by decide,
    c3_default_nine mZavtra cNow ⟨20001, 36000000000⟩ (by decide)
      (by decide) rfl (by decide)⟩

/-- Match record of a bare `"сегодня …"` input: only the `сегодня`
anchor fires. -/
def mSegodnya : ReminderMatches :=
  { through := none, days := none, hasPoslezavtra := false,
    hasZavtra := false, hasSegodnya := true, timeMatch := none }

/-- C4 counterexample: for the input `"сегодня …"` the parser returns
`fire_at = now` exactly — not strictly later than `now`: rule 4 sets
`reminder_time = now`, no clock time matches, the date equals today's
so no 09:00 defaulting happens, and `reminder_time < now` is false so
no day is added. -/
theorem c4_counterexample :
    parseFireAt mSegodnya cNow = Except.ok cNow ∧
    ¬ toAbs cNow < toAbs cNow := by
  refine ⟨by decide, by simp⟩

/-- C4 (amended): `fire_at` is never strictly earlier than `now`, but
it can equal `now` (bare `"сегодня"`); whenever the naive parse is
strictly before `now`, exactly one day is added, once, and the result
is then strictly in the future; a naive parse not before `now` is
returned unchanged. -/
theorem c4_fire_at_never_past (m : ReminderMatches) (now : PyDateTime)
    (hn : now.usec < usecPerDay) (t : PyDateTime)
    (h : parseFireAt m now = Except.ok t) :
    toAbs now ≤ toAbs t ∧
    (∀ v, naiveFireAt m now = Except.ok v →
      ((toAbs v < toAbs now →
          t = addUsec v usecPerDay ∧ toAbs now < toAbs t) ∧
       (¬ toAbs v < toAbs now → t = v))) := by
  cases hv : naiveFireAt m now with
  | error e =>
    rw [parseFireAt, hv] at h
    cases h
  | ok v =>
    rw [parseFireAt_ok hv] at h
    have hspec := naiveFireAt_spec hn hv
    by_cases hlt : toAbs v < toAbs now
    · rw [if_pos hlt] at h
      cases h
      have hgt : toAbs now < toAbs (addUsec v usecPerDay) := by
        rw [toAbs_addUsec]
        have h1 : now.day * usecPerDay ≤ v.day * usecPerDay :=
          Nat.mul_le_mul_right _ hspec.1
        simp only [toAbs, usecPerDay] at *
        omega
      refine ⟨Nat.le_of_lt hgt, ?_⟩
      intro v' hv'
      have hvv : v = v' := Except.ok.inj hv'
      subst hvv
      exact ⟨fun _ => ⟨rfl, hgt⟩, fun hc => absurd hlt hc⟩
    · rw [if_neg hlt] at h
      cases h
      refine ⟨Nat.le_of_not_lt hlt, ?_⟩
      intro v' hv'
      have hvv : t = v' := Except.ok.inj hv'
      subst hvv
      exact ⟨fun hc => absurd hc hlt, fun _ => rfl⟩

/-- Match record of an input like `"14:30 сдать отчет"` parsed while
the clock already shows a later time: a bare early clock time. -/
def mClock8 : ReminderMatches :=
  { through := none, days := none, hasPoslezavtra := false,
    hasZavtra := false, hasSegodnya := false, timeMatch := some (8, 0) }

/-- C4 witness: a bare `"8:00 …"` at 10:00 rolls forward exactly one
day — the returned instant (day 20001, 08:00) is not before `now`,
and the roll equation holds for the naive value (day 20000, 08:00). -/
theorem c4_fire_at_never_past_witness :
    cNow.usec < usecPerDay ∧
    parseFireAt mClock8 cNow = Except.ok ⟨20001, 28800000000⟩ ∧
    toAbs cNow ≤ toAbs (⟨20001, 28800000000⟩ : PyDateTime) :=
  ⟨by decide, by decide,
    (c4_fire_at_never_past mClock8 cNow (by decide)
      ⟨20001, 28800000000⟩ (by decide)).1⟩

/-- Match record of an input like `"25:70 сдать отчет"`: the clock
regex `(\d{1,2})[:\.](\d{2})` happily matches hour 25 and minute 70. -/
def mBadClock : ReminderMatches :=
  { through := none, days := none, hasPoslezavtra := false,
    hasZavtra := false, hasSegodnya := false, timeMatch := some (25, 70) }

/-- Without a clock match, or with an in-range one, the naive stage
returns a value. -/
theorem naiveFireAt_total (m : ReminderMatches) (now : PyDateTime)
    (hclock : ∀ hm, m.timeMatch = some hm → hm.1 ≤ 23 ∧ hm.2 ≤ 59) :
    ∃ v, naiveFireAt m now = Except.ok v := by
  cases htm : m.timeMatch with
  | some hm =>
    rw [naiveFireAt_clock htm]
    unfold replaceHM
    rw [if_pos (hclock hm htm)]
    exact ⟨_, rfl⟩
  | none =>
    cases ha : anchorStage m now with
    | some rt =>
      rw [naiveFireAt_noclock_anchor htm ha]
      by_cases hd : rt.day ≠ now.day
      · rw [if_pos hd]
        exact ⟨_, rfl⟩
      · rw [if_neg hd]
        exact ⟨_, rfl⟩
    | none =>
      rw [naiveFireAt_fallback htm ha]
      exact ⟨_, rfl⟩

/-- When both overflow checks pass, the checked addition is the plain
one. -/
theorem addTimedelta_ok {t : PyDateTime} {n : Nat}
    (h1 : n ≤ timedeltaMaxUsec) (h2 : toAbs t + n ≤ datetimeMaxAbs) :
    addTimedelta t n = Except.ok (addUsec t n) := by
  unfold addTimedelta
  rw [if_neg (Nat.not_lt.mpr h1), if_neg (Nat.not_lt.mpr h2)]

theorem throughRuleChecked_eq (m : ReminderMatches) (now : PyDateTime)
    (hb : ∀ g1 g2, m.through = some (g1, g2) →
      ∀ a, extractNumber g1 = some a →
        a * usecPerHour ≤ timedeltaMaxUsec ∧
        toAbs now + a * usecPerHour ≤ datetimeMaxAbs) :
    throughRuleChecked m now = Except.ok (throughRule m now) := by
  rcases hth : m.through with _ | ⟨g1, g2⟩
  · simp only [throughRuleChecked, throughRule, hth]
  · simp only [throughRuleChecked, throughRule, hth]
    cases hex : extractNumber g1 with
    | none => simp only
    | some amount =>
      simp only
      rcases hb g1 g2 hth amount hex with ⟨hA, hB⟩
      by_cases h0 : amount = 0
      · rw [if_pos h0, if_pos h0]
      · rw [if_neg h0, if_neg h0]
        have hone : 1 ≤ amount := Nat.one_le_iff_ne_zero.mpr h0
        have hHle : usecPerHour ≤ amount * usecPerHour := by
          calc usecPerHour = 1 * usecPerHour := (Nat.one_mul _).symm
            _ ≤ amount * usecPerHour := Nat.mul_le_mul_right _ hone
        have hMle : amount * usecPerMin ≤ amount * usecPerHour :=
          Nat.mul_le_mul_left _ (by rw [usecPerMin, usecPerHour]; omega)
        have h30 : 30 * usecPerMin ≤ usecPerHour := by
          rw [usecPerMin, usecPerHour]
          omega
        split
        · rw [addTimedelta_ok (le_trans (le_trans h30 hHle) hA)
            (le_trans (Nat.add_le_add_left (le_trans h30 hHle) _) hB)]
          rfl
        · split
          · rw [addTimedelta_ok hA hB]
            rfl
          · rw [addTimedelta_ok (le_trans hMle hA)
              (le_trans (Nat.add_le_add_left hMle _) hB)]
            rfl

theorem daysRuleChecked_eq (m : ReminderMatches) (now : PyDateTime)
    (rt0 : Option PyDateTime)
    (hb : ∀ g1, m.days = some g1 → ∀ d, extractNumber g1 = some d →
      d * usecPerDay ≤ timedeltaMaxUsec ∧
      toAbs now + d * usecPerDay ≤ datetimeMaxAbs) :
    daysRuleChecked m now rt0 = Except.ok (daysRule m now rt0) := by
  rcases hds : m.days with _ | g1
  · simp only [daysRuleChecked, daysRule, hds]
  · simp only [daysRuleChecked, daysRule, hds]
    by_cases h0 : rt0 = none
    · rw [if_pos h0, if_pos h0]
      cases hex : extractNumber g1 with
      | none => simp only
      | some d =>
        simp only
        rcases hb g1 hds d hex with ⟨hA, hB⟩
        by_cases hd0 : d = 0
        · rw [if_pos hd0, if_pos hd0]
        · rw [if_neg hd0, if_neg hd0, addTimedelta_ok hA hB]
          rfl
    · rw [if_neg h0, if_neg h0]

theorem dayAnchorRuleChecked_eq (m : ReminderMatches) (now : PyDateTime)
    (rt1 : Option PyDateTime)
    (hb : toAbs now + 2 * usecPerDay ≤ datetimeMaxAbs) :
    dayAnchorRuleChecked m now rt1 = Except.ok (dayAnchorRule m now rt1) := by
  have h2d : 2 * usecPerDay ≤ timedeltaMaxUsec := by
    rw [usecPerDay, timedeltaMaxUsec]
    omega
  have h1d : usecPerDay ≤ timedeltaMaxUsec := by
    rw [usecPerDay, timedeltaMaxUsec]
    omega
  have h1b : toAbs now + usecPerDay ≤ datetimeMaxAbs := by
    rw [usecPerDay] at *
    omega
  unfold dayAnchorRuleChecked dayAnchorRule
  split
  · rw [addTimedelta_ok h2d hb]
    rfl
  · split
    · rw [addTimedelta_ok h1d h1b]
      rfl
    · split
      · rfl
      · rfl

theorem anchorStageChecked_eq (m : ReminderMatches) (now : PyDateTime)
    (hthrough : throughRuleChecked m now = Except.ok (throughRule m now))
    (hdays : ∀ rt0, daysRuleChecked m now rt0 = Except.ok (daysRule m now rt0))
    (hanchor : ∀ rt1, dayAnchorRuleChecked m now rt1 =
      Except.ok (dayAnchorRule m now rt1)) :
    anchorStageChecked m now = Except.ok (anchorStage m now) := by
  unfold anchorStageChecked anchorStage
  rw [hthrough]
  simp only
  rw [hdays]
  simp only
  rw [hanchor]

theorem naiveFireAtChecked_eq (m : ReminderMatches) (now : PyDateTime)
    (hanchor : anchorStageChecked m now = Except.ok (anchorStage m now))
    (hfall : toAbs now + usecPerHour ≤ datetimeMaxAbs) :
    naiveFireAtChecked m now = naiveFireAt m now := by
  have hH : usecPerHour ≤ timedeltaMaxUsec := by
    rw [usecPerHour, timedeltaMaxUsec]
    omega
  unfold naiveFireAtChecked
  rw [hanchor]
  simp only
  cases htm : m.timeMatch with
  | some hm =>
    rw [naiveFireAt_clock htm]
  | none =>
    cases ha : anchorStage m now with
    | some rt =>
      rw [naiveFireAt_noclock_anchor htm ha]
    | none =>
      rw [naiveFireAt_fallback htm ha, addTimedelta_ok hH hfall]
      rfl

theorem parseFireAtChecked_ok {m : ReminderMatches} {now v : PyDateTime}
    (hv : naiveFireAtChecked m now = Except.ok v) :
    parseFireAtChecked m now =
      (if toAbs v < toAbs now then addTimedelta v usecPerDay
       else Except.ok v) := by
  unfold parseFireAtChecked
  rw [hv]

/-- Match record of an input like
`"через 99999999999999 минут позвонить"`: a digit run far beyond the
`timedelta` magnitude bound, and no clock token at all. -/
def mOverflowThrough : ReminderMatches :=
  { through := some ("99999999999999", some "мин"), days := none,
    hasPoslezavtra := false, hasZavtra := false, hasSegodnya := false,
    timeMatch := none }

/-- C5 counterexample: the parser is not total — an out-of-range
matched clock value such as `"25:70 …"` raises `ValueError` (from
`datetime.replace`), and an oversized relative offset such as
`"через 99999999999999 минут …"` (no clock token at all) raises
`OverflowError` at `timedelta` construction. -/
theorem c5_counterexample :
    parseFireAtChecked mBadClock cNow = Except.error "ValueError" ∧
    parseFireAtChecked mOverflowThrough cNow =
      Except.error "OverflowError" := by
  exact ⟨by decide, by decide⟩

/-- C5 (amended): the parser returns a result without raising for
every input and every `now` provided (i) any explicit clock match is
in range (hour ≤ 23, minute ≤ 59) — otherwise `datetime.replace`
raises `ValueError` — and (ii) any matched relative-offset amount is
small enough that the `timedelta` construction and `datetime`
addition stay within Python's bounds, with `now` at least three days
clear of `datetime.max` — otherwise `OverflowError`.  In particular
it never raises for merely ambiguous input, and the 1-hour fallback
covers inputs where nothing matches. -/
theorem c5_parser_total (m : ReminderMatches) (now : PyDateTime)
    (hn : now.usec < usecPerDay)
    (hclock : ∀ hm, m.timeMatch = some hm → hm.1 ≤ 23 ∧ hm.2 ≤ 59)
    (hthrough : ∀ g1 g2, m.through = some (g1, g2) →
      ∀ a, extractNumber g1 = some a →
        a * usecPerHour ≤ timedeltaMaxUsec ∧
        toAbs now + a * usecPerHour ≤ datetimeMaxAbs)
    (hdays : ∀ g1, m.days = some g1 → ∀ d, extractNumber g1 = some d →
      d * usecPerDay ≤ timedeltaMaxUsec ∧
      toAbs now + d * usecPerDay ≤ datetimeMaxAbs)
    (hfixed : toAbs now + 3 * usecPerDay ≤ datetimeMaxAbs) :
    ∃ t, parseFireAtChecked m now = Except.ok t := by
  have h2d : toAbs now + 2 * usecPerDay ≤ datetimeMaxAbs := by
    rw [usecPerDay] at *
    omega
  have hfall : toAbs now + usecPerHour ≤ datetimeMaxAbs := by
    rw [usecPerDay] at hfixed
    rw [usecPerHour]
    omega
  have hanch : anchorStageChecked m now = Except.ok (anchorStage m now) :=
    anchorStageChecked_eq m now (throughRuleChecked_eq m now hthrough)
      (fun rt0 => daysRuleChecked_eq m now rt0 hdays)
      (fun rt1 => dayAnchorRuleChecked_eq m now rt1 h2d)
  have hnc : naiveFireAtChecked m now = naiveFireAt m now :=
    naiveFireAtChecked_eq m now hanch hfall
  rcases naiveFireAt_total m now hclock with ⟨v, hv⟩
  have hvspec := naiveFireAt_spec hn hv
  rw [parseFireAtChecked_ok (hnc.trans hv)]
  by_cases hlt : toAbs v < toAbs now
  · rw [if_pos hlt]
    have h1d : usecPerDay ≤ timedeltaMaxUsec := by
      rw [usecPerDay, timedeltaMaxUsec]
      omega
    have hroll : toAbs v + usecPerDay ≤ datetimeMaxAbs := by
      rw [usecPerDay] at *
      omega
    rw [addTimedelta_ok h1d hroll]
    exact ⟨_, rfl⟩
  · rw [if_neg hlt]
    exact ⟨v, rfl⟩

/-- Match record of an input like `"в 14:30 встреча"`. -/
def mClock1430 : ReminderMatches :=
  { through := none, days := none, hasPoslezavtra := false,
    hasZavtra := false, hasSegodnya := false, timeMatch := some (14, 30) }

/-- C5 witness: a well-formed clock input at a mid-range `now` parses
to some instant without raising. -/
theorem c5_parser_total_witness :
    ∃ t, parseFireAtChecked mClock1430 cNow = Except.ok t :=
  c5_parser_total mClock1430 cNow (by decide)
    (fun hm hhm => by cases hhm; exact ⟨by decide, by decide⟩)
    (fun g1 g2 h => by cases h)
    (fun g1 h => by cases h)
    (by decide)
